import Mathlib

/-!
Verification of the preprocessing and inference core of `webapp.py` (the corn
disease detector web application).

Modelling conventions of this shallow embedding:

* Python/NumPy/PyTorch floating-point numbers are modelled as exact rationals
  (`ℚ`); the numerical claims are about exact arithmetic identities, and the
  hard-coded decimal constants are carried verbatim.
* A decoded PIL image is a pixel grid with an explicit channel count
  (3 for RGB, 1 for grayscale mode L, 4 for RGBA); `PIL.Image.resize` returns
  a copy when the target size equals the current size and otherwise resamples
  (the resampling filter is modelled as nearest neighbour; every claim below
  is independent of the interpolation choice, which the specification leaves
  open).  `PIL.Image.crop` rounds its box coordinates to integers.
* A NumPy array / Torch tensor is a shape together with a total indexing
  function `List Nat → ℚ`; `transpose`, elementwise broadcasting and `view`
  follow the NumPy/PyTorch shape rules and are fallible (`Option`), mirroring
  the exceptions the libraries raise on shape mismatch.
* `torch.topk` is modelled as sorting the (index, value) pairs by descending
  value and taking the first `k`; it fails when `k` exceeds the length.
* A model checkpoint and the ResNet-50 module are modelled by their parameter
  lists (value plus `requires_grad` flag), the classification head `fc`, the
  two label mappings, and an abstract architecture function computing the
  forward pass from the weights.  `torchvision.models.resnet50(pretrained)`
  is external library state and enters `load_model_nocuda` as a parameter.
-/

/-- A decoded PIL image: width, height, number of colour channels, and the
8-bit pixel grid, accessed as `pixel x y c`. -/
structure PILImage where
  width : Nat
  height : Nat
  channels : Nat
  pixel : Nat → Nat → Nat → Nat

/-- Model of `PIL.Image.resize((w, h))`: identity copy when the size already
matches (as in Pillow), otherwise nearest-neighbour resampling onto the new
grid.  The channel count is preserved. -/
def PILImage.resize (img : PILImage) (w h : Nat) : PILImage :=
  if img.width = w ∧ img.height = h then img
  else
    { width := w, height := h, channels := img.channels,
      pixel := fun x y c => img.pixel (x * img.width / w) (y * img.height / h) c }

/-- Model of `PIL.Image.crop((left, top, right, bottom))`: the box coordinates
(floats in the source) are rounded to integers, and the cropped image reads
pixel `(x, y)` from `(x + left, y + top)` of the source. -/
def PILImage.crop (img : PILImage) (left top right bottom : ℚ) : PILImage :=
  let l := (round left).toNat
  let t := (round top).toNat
  let r := (round right).toNat
  let b := (round bottom).toNat
  { width := r - l, height := b - t, channels := img.channels,
    pixel := fun x y c => img.pixel (x + l) (y + t) c }

/-- A NumPy array (also used for Torch tensors): a shape and a total indexing
function on multi-indices. -/
structure NDArray where
  shape : List Nat
  data : List Nat → ℚ

/-- Model of `np.array(img)` on a PIL image: a 1-channel (mode L) image decodes
to a 2-D array of shape `[height, width]`; an image with `C ≥ 2` channels
decodes to shape `[height, width, C]`, indexed as `arr[y][x][c]`. -/
def np_array (img : PILImage) : NDArray :=
  if img.channels = 1 then
    { shape := [img.height, img.width],
      data := fun idx => (img.pixel (idx.getD 1 0) (idx.getD 0 0) 0 : ℚ) }
  else
    { shape := [img.height, img.width, img.channels],
      data := fun idx => (img.pixel (idx.getD 1 0) (idx.getD 0 0) (idx.getD 2 0) : ℚ) }

/-- NumPy `ndarray.transpose(axes)`: requires `axes` to be a permutation of
the dimension indices; the result's `i`-th dimension is the `axes[i]`-th
dimension of the source. -/
def NDArray.transpose (a : NDArray) (axes : List Nat) : Option NDArray :=
  if axes.length = a.shape.length ∧ (List.range a.shape.length).all (fun j => axes.contains j) then
    some { shape := axes.map (fun j => a.shape.getD j 0),
           data := fun idx =>
             a.data ((List.range a.shape.length).map (fun j => idx.getD (axes.indexOf j) 0)) }
  else none

/-- Elementwise division of an array by a scalar. -/
def NDArray.divScalar (a : NDArray) (q : ℚ) : NDArray :=
  { shape := a.shape, data := fun idx => a.data idx / q }

/-- NumPy broadcasting of two reversed shape lists (aligned from the least
significant dimension): dimensions must be equal or one of them 1. -/
def bcastRev : List Nat → List Nat → Option (List Nat)
  | [], ys => some ys
  | x :: xs, [] => some (x :: xs)
  | x :: xs, y :: ys =>
    match bcastRev xs ys with
    | none => none
    | some r =>
      if x = y then some (x :: r)
      else if x = 1 then some (y :: r)
      else if y = 1 then some (x :: r)
      else none

/-- The broadcast shape of two shapes, when they are compatible. -/
def broadcastShapes (xs ys : List Nat) : Option (List Nat) :=
  (bcastRev xs.reverse ys.reverse).map List.reverse

/-- Translate a multi-index of the broadcast result into a multi-index of an
operand with the given reversed shape: dimensions of extent 1 are pinned to 0,
leading broadcast dimensions are dropped. -/
def bIndexRev : List Nat → List Nat → List Nat
  | [], _ => []
  | _ :: ss, [] => 0 :: bIndexRev ss []
  | s :: ss, i :: is => (if s = 1 then 0 else i) :: bIndexRev ss is

/-- Operand index corresponding to a result index under broadcasting. -/
def broadcastIndex (shape idx : List Nat) : List Nat :=
  (bIndexRev shape.reverse idx.reverse).reverse

/-- Elementwise binary operation with NumPy broadcasting; fails exactly when
the shapes are incompatible (the exception NumPy raises). -/
def NDArray.binop (f : ℚ → ℚ → ℚ) (a b : NDArray) : Option NDArray :=
  match broadcastShapes a.shape b.shape with
  | none => none
  | some sh =>
    some { shape := sh,
           data := fun idx =>
             f (a.data (broadcastIndex a.shape idx)) (b.data (broadcastIndex b.shape idx)) }

/-- Row-major linearisation of a multi-index under a shape. -/
def flattenIdx : List Nat → List Nat → Nat
  | _, [] => 0
  | [], _ :: _ => 0
  | _ :: ss, i :: is => i * ss.prod + flattenIdx ss is

/-- Inverse of `flattenIdx`: recover a multi-index from a linear offset. -/
def unflattenIdx : List Nat → Nat → List Nat
  | [], _ => []
  | _ :: ss, n => (n / ss.prod) :: unflattenIdx ss (n % ss.prod)

/-- Torch `Tensor.view(sh)`: reinterpret the array under a new shape with the
same number of elements; fails when the element counts differ. -/
def NDArray.view (a : NDArray) (sh : List Nat) : Option NDArray :=
  if sh.prod = a.shape.prod then
    some { shape := sh, data := fun idx => a.data (unflattenIdx a.shape (flattenIdx sh idx)) }
  else none

/-- Model of `torch.Tensor(img)` on an already-numeric array: the values are
unchanged. -/
def torch_Tensor (a : NDArray) : NDArray := a

/-- `mean_datasets`: the hard-coded per-channel training-set means of
`webapp.py`. -/
def mean_datasets : List ℚ := [4375/10000, 5055/10000, 3819/10000]

/-- `std_datasets`: the hard-coded per-channel training-set standard
deviations of `webapp.py`. -/
def std_datasets : List ℚ := [2156/10000, 2261/10000, 2154/10000]

/-- NumPy `reshape((3,1,1))` of a 3-element vector. -/
def reshape311 (l : List ℚ) : NDArray :=
  { shape := [3, 1, 1], data := fun idx => l.getD (idx.getD 0 0) 0 }

/-- `left` of the crop box in `process_image`: `(width - new_width) / 2` with
`width = 256`, `new_width = 224` (float division in the source). -/
def crop_left : ℚ := (256 - 224) / 2

/-- `top` of the crop box in `process_image`. -/
def crop_top : ℚ := (256 - 224) / 2

/-- `right` of the crop box in `process_image`: `(width + new_width) / 2`. -/
def crop_right : ℚ := (256 + 224) / 2

/-- `bottom` of the crop box in `process_image`. -/
def crop_bottom : ℚ := (256 + 224) / 2

/-- The crop box `(left, top, right, bottom)` passed to `img.crop` in
`process_image`. -/
def crop_box : ℚ × ℚ × ℚ × ℚ := (crop_left, crop_top, crop_right, crop_bottom)

/-- `process_image` of `webapp.py`: resize to 256×256, centre-crop to 224×224,
convert to a channel-first NumPy array scaled by 1/256, subtract the
per-channel means and divide by the per-channel standard deviations, and wrap
as a Torch tensor.  Fails (`none`) exactly where the NumPy operations raise. -/
def process_image (image : PILImage) : Option NDArray := do
  let img := image.resize 256 256
  let img := img.crop crop_left crop_top crop_right crop_bottom
  let arr ← (np_array img).transpose [2, 0, 1]
  let arr := arr.divScalar 256
  let means := reshape311 mean_datasets
  let stds := reshape311 std_datasets
  let arr ← arr.binop (fun u v => u - v) means
  let arr ← arr.binop (fun u v => u / v) stds
  return torch_Tensor arr

/-- A Torch parameter: its (flattened) value and its `requires_grad` flag. -/
structure Param where
  value : ℚ
  requires_grad : Bool
deriving DecidableEq

/-- The contents of the serialized checkpoint file produced by `torch.load`:
the replacement classification head, the full state dict (modelled as the
positional list of all parameter values), the two label mappings, the epoch
count, and the optimizer object with its state dict. -/
structure Checkpoint where
  fc : List Param
  state_dict : List ℚ
  class_to_idx : List (String × Nat)
  idx_to_class : List (Nat × String)
  epochs : Nat
  optimizer : List ℚ
  optimizer_state_dict : List ℚ

/-- The optimizer reconstructed by `load_model_nocuda`: the checkpoint's
optimizer object with its state dict loaded into it. -/
structure Optimizer where
  obj : List ℚ
  state : List ℚ

/-- A Torch module as used by `webapp.py`: the backbone parameters, the `fc`
classification head parameters, an architecture function computing the
forward pass of a single-image batch from the current weights (returning the
single row of the `1 × C` output), and the fields `load_model_nocuda`
attaches. -/
structure Model where
  backbone : List Param
  fc : List Param
  arch : List Param → List Param → NDArray → List ℚ
  class_to_idx : List (String × Nat)
  idx_to_class : List (Nat × String)
  epochs : Nat

/-- `model(x)`: the forward pass, computed by the architecture from the
current weights. -/
def Model.forward (m : Model) (x : NDArray) : List ℚ :=
  m.arch m.backbone m.fc x

/-- `param.requires_grad = False` applied to one parameter. -/
def freezeParam (p : Param) : Param :=
  { p with requires_grad := false }

/-- `load_state_dict`-style value update on a parameter list: copy checkpoint
values into the parameters positionally, keeping each parameter's
`requires_grad` flag. -/
def load_values (ps : List Param) (vs : List ℚ) : List Param :=
  List.zipWith (fun p v => { p with value := v }) ps vs

/-- `load_model_nocuda` of `webapp.py`.  The pretrained module returned by
`torchvision.models.resnet50(pretrained=True)` is external library state and
enters as the parameter `resnet50`; `checkpoint` is the result of
`torch.load`.  In source order: every parameter of the pretrained model is
frozen (`requires_grad = False`), `model.fc` is replaced by the checkpoint's
head, `load_state_dict` copies the checkpoint's weights into the current
(backbone, fc) parameters — failing, as Torch does, when the sizes disagree —
the label mappings and epoch count are attached, and the optimizer is
rebuilt from the checkpoint. -/
def load_model_nocuda (resnet50 : Model) (checkpoint : Checkpoint) : Option (Model × Optimizer) :=
  let model := resnet50
  let model := { model with
    backbone := model.backbone.map freezeParam,
    fc := model.fc.map freezeParam }
  let model := { model with fc := checkpoint.fc }
  if checkpoint.state_dict.length = model.backbone.length + model.fc.length then
    let model := { model with
      backbone := load_values model.backbone (checkpoint.state_dict.take model.backbone.length),
      fc := load_values model.fc (checkpoint.state_dict.drop model.backbone.length),
      class_to_idx := checkpoint.class_to_idx,
      idx_to_class := checkpoint.idx_to_class,
      epochs := checkpoint.epochs }
    some (model, { obj := checkpoint.optimizer, state := checkpoint.optimizer_state_dict })
  else none

/-- The (index, value) enumeration of a vector, indices starting at `i`. -/
def enumQ : Nat → List ℚ → List (Nat × ℚ)
  | _, [] => []
  | i, x :: xs => (i, x) :: enumQ (i + 1) xs

/-- Descending order on (index, value) pairs, comparing values. -/
def descPair (p q : Nat × ℚ) : Prop :=
  q.2 ≤ p.2

instance : DecidableRel descPair :=
  fun p q => inferInstanceAs (Decidable (q.2 ≤ p.2))

instance : IsTotal (Nat × ℚ) descPair :=
  ⟨fun a b => le_total b.2 a.2⟩

instance : IsTrans (Nat × ℚ) descPair :=
  ⟨fun _ _ _ h₁ h₂ => le_trans h₂ h₁⟩

/-- Model of `torch.topk(k)` on a vector: `k` must not exceed the length
(Torch raises otherwise); the result is the values and indices of the `k`
largest entries, values in descending order. -/
def torch_topk (l : List ℚ) (k : Nat) : Option (List ℚ × List Nat) :=
  if k ≤ l.length then
    let s := (List.insertionSort descPair (enumQ 0 l)).take k
    some (s.map Prod.snd, s.map Prod.fst)
  else none

/-- The list comprehension `[model.idx_to_class[i] for i in topclass]`: a
dictionary lookup per selected index; a missing key raises (`none`). -/
def mapLookup (d : List (Nat × String)) : List Nat → Option (List String)
  | [] => some []
  | i :: is =>
    match List.lookup i d with
    | none => none
    | some s =>
      match mapLookup d is with
      | none => none
      | some r => some (s :: r)

/-- The body of the `torch.no_grad()` block of `predict_nocuda`: a forward
pass under disabled gradient tracking.  The forward pass reads but never
writes the parameters, so the model state after the block is unchanged. -/
def no_grad_forward (m : Model) (x : NDArray) : List ℚ × Model :=
  (m.forward x, m)

/-- `predict_nocuda` of `webapp.py`, also returning the model as it stands
after the call (for the frame property).  `expF` is the library function
`torch.exp`, applied elementwise.  The image is preprocessed, viewed as a
`1×3×224×224` batch, pushed through the model inside `torch.no_grad()`, the
log-probability outputs are exponentiated, and the top-`k` probabilities are
paired with the class labels looked up for their indices. -/
def predict_nocuda_full (expF : ℚ → ℚ) (image : PILImage) (model : Model) (k : Nat) :
    Option ((List ℚ × List String) × Model) := do
  let t ← process_image image
  let t ← t.view [1, 3, 224, 224]
  let (out, model) := no_grad_forward model t
  let ps := out.map expF
  let (top_p, topclass) ← torch_topk ps k
  let top_classes ← mapLookup model.idx_to_class topclass
  return ((top_p, top_classes), model)

/-- `predict_nocuda`: the (probabilities, labels) pair returned to the
caller. -/
def predict_nocuda (expF : ℚ → ℚ) (image : PILImage) (model : Model) (k : Nat) :
    Option (List ℚ × List String) :=
  (predict_nocuda_full expF image model k).map Prod.fst

theorem PILImage.resize_width (img : PILImage) (w h : Nat) : (img.resize w h).width = w := by
  unfold PILImage.resize
  split <;> simp_all

theorem PILImage.resize_height (img : PILImage) (w h : Nat) : (img.resize w h).height = h := by
  unfold PILImage.resize
  split <;> simp_all

theorem PILImage.resize_channels (img : PILImage) (w h : Nat) :
    (img.resize w h).channels = img.channels := by
  unfold PILImage.resize
  split <;> simp_all

theorem crop_eval (img : PILImage) :
    img.crop crop_left crop_top crop_right crop_bottom =
      { width := 224, height := 224, channels := img.channels,
        pixel := fun x y c => img.pixel (x + 16) (y + 16) c } := by
  have h1 : round crop_left = 16 := by norm_num [crop_left]
  have h2 : round crop_top = 16 := by norm_num [crop_top]
  have h3 : round crop_right = 240 := by norm_num [crop_right]
  have h4 : round crop_bottom = 240 := by norm_num [crop_bottom]
  simp only [PILImage.crop, h1, h2, h3, h4, PILImage.mk.injEq]
  refine ⟨by decide, by decide, trivial, ?_⟩
  rfl

theorem process_image_spec (image : PILImage) (h3 : image.channels = 3) :
    ∃ t, process_image image = some t ∧ t.shape = [3, 224, 224] ∧
      ∀ c y x : Nat,
        t.data [c, y, x] =
          (((image.resize 256 256).pixel (x + 16) (y + 16) c : ℚ) / 256
              - mean_datasets.getD c 0) / std_datasets.getD c 0 := by
  have hch : (image.resize 256 256).channels = 3 := by
    rw [PILImage.resize_channels, h3]
  simp only [process_image]
  rw [crop_eval, hch]
  exact ⟨_, rfl, rfl, fun c y x => rfl⟩

theorem process_image_gray_none (image : PILImage) (h1 : image.channels = 1) :
    process_image image = none := by
  have hch : (image.resize 256 256).channels = 1 := by
    rw [PILImage.resize_channels, h1]
  simp only [process_image]
  rw [crop_eval, hch]
  rfl

theorem process_image_rgba_none (image : PILImage) (h4 : image.channels = 4) :
    process_image image = none := by
  have hch : (image.resize 256 256).channels = 4 := by
    rw [PILImage.resize_channels, h4]
  simp only [process_image]
  rw [crop_eval, hch]
  rfl

/-- A concrete 5×7 RGB test image with varying pixel values. -/
def wImage : PILImage :=
  { width := 5, height := 7, channels := 3, pixel := fun x y c => (x + 2 * y + c) % 256 }

/-- The 256×256 all-mid-gray RGB test image, every pixel `(128, 128, 128)`. -/
def grayImage : PILImage :=
  { width := 256, height := 256, channels := 3, pixel := fun _ _ _ => 128 }

/-- A concrete single-channel (grayscale, mode L) test image. -/
def imgL : PILImage :=
  { width := 10, height := 10, channels := 1, pixel := fun x y _ => (x + y) % 256 }

/-- A concrete four-channel (RGBA) test image. -/
def imgA : PILImage :=
  { width := 10, height := 10, channels := 4, pixel := fun x y c => (x * y + c) % 256 }

/-- C1: for every valid decoded RGB image (3 colour channels), of any input
width and height, `process_image` returns a tensor of shape `3 × 224 × 224`
(channel-first). -/
theorem C1_process_image_shape (image : PILImage) (h3 : image.channels = 3) :
    ∃ t, process_image image = some t ∧ t.shape = [3, 224, 224] := by
  obtain ⟨t, ht, hsh, _⟩ := process_image_spec image h3
  exact ⟨t, ht, hsh⟩

/-- Witness for C1 at a concrete 5×7 RGB image. -/
theorem C1_witness :
    wImage.channels = 3 ∧ ∃ t, process_image wImage = some t ∧ t.shape = [3, 224, 224] :=
  ⟨rfl, C1_process_image_shape wImage rfl⟩

/-- C4: the centre-crop step of `process_image` computes its crop box as
`((256-224)/2, (256-224)/2, (256+224)/2, (256+224)/2)`, which is exactly
`(16, 16, 240, 240)` — a 16-pixel offset from each edge of the 256×256
resized image. -/
theorem C4_crop_box :
    crop_box = ((256 - 224) / 2, (256 - 224) / 2, (256 + 224) / 2, (256 + 224) / 2) ∧
      crop_box = (16, 16, 240, 240) := by
  refine ⟨rfl, ?_⟩
  simp only [crop_box, crop_left, crop_top, crop_right, crop_bottom, Prod.mk.injEq]
  norm_num

/-- C3: preprocessing scales 8-bit values by 1/256 (not 1/255) and then
standardizes per channel, so on the 256×256 all-(128,128,128) image every
element of channel `c` of the output equals `(128/256 - mean_c)/std_c`. -/
theorem C3_gray_normalization (c y x : Nat) (_hc : c < 3) (_hy : y < 224) (_hx : x < 224) :
    ∃ t, process_image grayImage = some t ∧
      t.data [c, y, x] = ((128 : ℚ) / 256 - mean_datasets.getD c 0) / std_datasets.getD c 0 := by
  obtain ⟨t, ht, _, hdata⟩ := process_image_spec grayImage rfl
  refine ⟨t, ht, ?_⟩
  rw [hdata]
  norm_num [show (grayImage.resize 256 256).pixel (x + 16) (y + 16) c = 128 from rfl]

/-- Witness for C3 at tensor position `(0, 0, 0)`. -/
theorem C3_witness :
    (0 : Nat) < 3 ∧ (0 : Nat) < 224 ∧
      ∃ t, process_image grayImage = some t ∧
        t.data [0, 0, 0] = ((128 : ℚ) / 256 - mean_datasets.getD 0 0) / std_datasets.getD 0 0 :=
  ⟨by decide, by decide, C3_gray_normalization 0 0 0 (by decide) (by decide) (by decide)⟩

/-- C5: the inverse normalization — multiply the produced value by the
channel's standard deviation, add the channel mean, scale by 256 — recovers
the pixel value that was normalized (exactly, in the rational model of
floating point). -/
theorem C5_normalization_roundtrip (image : PILImage) (h3 : image.channels = 3)
    (c y x : Nat) (hc : c < 3) (_hy : y < 224) (_hx : x < 224) :
    ∃ t, process_image image = some t ∧
      (t.data [c, y, x] * std_datasets.getD c 0 + mean_datasets.getD c 0) * 256 =
        ((image.resize 256 256).pixel (x + 16) (y + 16) c : ℚ) := by
  obtain ⟨t, ht, _, hdata⟩ := process_image_spec image h3
  refine ⟨t, ht, ?_⟩
  rw [hdata]
  have hs : std_datasets.getD c 0 ≠ 0 := by
    interval_cases c <;> norm_num [std_datasets]
  rw [div_mul_cancel₀ _ hs]
  ring

/-- Witness for C5 at the all-gray image and position `(0, 0, 0)`. -/
theorem C5_witness :
    grayImage.channels = 3 ∧ (0 : Nat) < 3 ∧ (0 : Nat) < 224 ∧
      ∃ t, process_image grayImage = some t ∧
        (t.data [0, 0, 0] * std_datasets.getD 0 0 + mean_datasets.getD 0 0) * 256 =
          ((grayImage.resize 256 256).pixel (0 + 16) (0 + 16) 0 : ℚ) :=
  ⟨rfl, by decide, by decide,
    C5_normalization_roundtrip grayImage rfl 0 0 0 (by decide) (by decide) (by decide)⟩

/-- C9: `process_image` meets its `3×224×224` contract only for 3-channel
input: on a single-channel (grayscale) image the channel-first transpose
fails, and on a four-channel (RGBA) image broadcasting the 3-element mean
fails, so in both cases the pipeline raises (returns `none`) instead of
returning a mis-shaped tensor. -/
theorem C9_non_rgb_fails (image : PILImage)
    (h : image.channels = 1 ∨ image.channels = 4) :
    process_image image = none := by
  rcases h with h | h
  · exact process_image_gray_none image h
  · exact process_image_rgba_none image h

/-- Witness for C9 at a concrete grayscale image and a concrete RGBA image. -/
theorem C9_witness :
    ((imgL.channels = 1 ∨ imgL.channels = 4) ∧ process_image imgL = none) ∧
      ((imgA.channels = 1 ∨ imgA.channels = 4) ∧ process_image imgA = none) :=
  ⟨⟨Or.inl (by rfl), C9_non_rgb_fails imgL (Or.inl (by rfl))⟩,
    ⟨Or.inr (by rfl), C9_non_rgb_fails imgA (Or.inr (by rfl))⟩⟩

theorem load_values_frozen (ps : List Param) (hps : ∀ p ∈ ps, p.requires_grad = false) :
    ∀ vs : List ℚ, ∀ q ∈ load_values ps vs, q.requires_grad = false := by
  induction ps with
  | nil => intro vs q hq; simp [load_values] at hq
  | cons p ps ih =>
    intro vs q hq
    cases vs with
    | nil => simp [load_values] at hq
    | cons v vs =>
      simp only [load_values, List.zipWith_cons_cons, List.mem_cons] at hq
      rcases hq with hq | hq
      · subst hq
        exact hps p (List.mem_cons_self p ps)
      · exact ih (fun a ha => hps a (List.mem_cons_of_mem p ha)) vs q hq

theorem load_values_requires_grad (ps : List Param) :
    ∀ vs : List ℚ, ps.length ≤ vs.length →
      (load_values ps vs).map (fun p => p.requires_grad) =
        ps.map (fun p => p.requires_grad) := by
  induction ps with
  | nil => intro vs _; simp [load_values]
  | cons p ps ih =>
    intro vs hlen
    cases vs with
    | nil => simp at hlen
    | cons v vs =>
      simp only [load_values, List.zipWith_cons_cons, List.map_cons] at *
      exact congrArg _ (ih vs (by simpa using hlen))

theorem load_model_nocuda_some (r : Model) (c : Checkpoint) (m : Model) (opt : Optimizer)
    (h : load_model_nocuda r c = some (m, opt)) :
    c.state_dict.length = r.backbone.length + c.fc.length ∧
      m.backbone = load_values (r.backbone.map freezeParam)
          (c.state_dict.take (r.backbone.map freezeParam).length) ∧
      m.fc = load_values c.fc (c.state_dict.drop (r.backbone.map freezeParam).length) ∧
      m.class_to_idx = c.class_to_idx ∧ m.idx_to_class = c.idx_to_class := by
  simp only [load_model_nocuda] at h
  split at h
  case isTrue hc =>
    rw [Option.some.injEq, Prod.mk.injEq] at h
    obtain ⟨hm, _⟩ := h
    subst hm
    exact ⟨by simpa using hc, rfl, rfl, rfl, rfl⟩
  case isFalse => exact absurd h (by simp)

theorem predict_full_model_frame (expF : ℚ → ℚ) (image : PILImage) (model : Model) (k : Nat)
    (res : List ℚ × List String) (m2 : Model)
    (h : predict_nocuda_full expF image model k = some (res, m2)) : m2 = model := by
  unfold predict_nocuda_full at h
  cases hp : process_image image with
  | none => rw [hp] at h; simp at h
  | some t0 =>
    rw [hp] at h
    simp only [Option.bind_eq_bind, Option.some_bind] at h
    cases hv : t0.view [1, 3, 224, 224] with
    | none => rw [hv] at h; simp at h
    | some t =>
      rw [hv] at h
      simp only [Option.some_bind, no_grad_forward] at h
      rcases htk : torch_topk (List.map expF (model.forward t)) k with _ | ⟨tp, tc⟩
      · rw [htk] at h; simp at h
      · rw [htk] at h
        simp only [Option.some_bind] at h
        cases hml : mapLookup model.idx_to_class tc with
        | none => rw [hml] at h; simp at h
        | some cls =>
          rw [hml] at h
          simp at h
          exact h.2.symm

/-- A tiny concrete architecture for witnesses: the forward pass returns the
values of the head parameters. -/
def wArch : List Param → List Param → NDArray → List ℚ :=
  fun _ fc _ => fc.map (fun p => p.value)

/-- A tiny concrete pretrained model standing in for
`torchvision.models.resnet50(pretrained=True)` in witnesses. -/
def wResnet : Model :=
  { backbone := [{ value := 1, requires_grad := true }, { value := 2, requires_grad := true }],
    fc := [{ value := 3, requires_grad := true }],
    arch := wArch, class_to_idx := [], idx_to_class := [], epochs := 0 }

/-- A concrete well-formed checkpoint whose label mappings are mutually
inverse. -/
def wCkpt : Checkpoint :=
  { fc := [{ value := 0, requires_grad := true }, { value := 0, requires_grad := true },
           { value := 0, requires_grad := true }],
    state_dict := [10, 20, 5, 6, 7],
    class_to_idx := [("a", 0), ("b", 1), ("c", 2)],
    idx_to_class := [(0, "a"), (1, "b"), (2, "c")],
    epochs := 4, optimizer := [1], optimizer_state_dict := [2] }

/-- The model `load_model_nocuda wResnet wCkpt` produces. -/
def wLoaded : Model :=
  { backbone := [{ value := 10, requires_grad := false }, { value := 20, requires_grad := false }],
    fc := [{ value := 5, requires_grad := true }, { value := 6, requires_grad := true },
           { value := 7, requires_grad := true }],
    arch := wArch,
    class_to_idx := [("a", 0), ("b", 1), ("c", 2)],
    idx_to_class := [(0, "a"), (1, "b"), (2, "c")],
    epochs := 4 }

/-- The optimizer `load_model_nocuda wResnet wCkpt` produces. -/
def wOpt : Optimizer :=
  { obj := [1], state := [2] }

/-- A concrete checkpoint whose two label mappings are not mutually inverse. -/
def badCkpt : Checkpoint :=
  { fc := [{ value := 0, requires_grad := true }],
    state_dict := [10, 20, 9],
    class_to_idx := [("a", 0)],
    idx_to_class := [(0, "b")],
    epochs := 1, optimizer := [], optimizer_state_dict := [] }

/-- C6: both stages are deterministic.  Preprocessing of byte-identical images
yields identical tensors; inference is a pure function of the model parameters
and the image, and a call returns the model unchanged, so repeated calls — the
second one on the model state left behind by the first — yield identical
(probabilities, labels) output. -/
theorem C6_deterministic (img1 img2 : PILImage) (h : img1 = img2)
    (expF : ℚ → ℚ) (model : Model) (k : Nat) :
    process_image img1 = process_image img2 ∧
      predict_nocuda expF img1 model k = predict_nocuda expF img2 model k ∧
      ∀ res m2, predict_nocuda_full expF img1 model k = some (res, m2) →
        predict_nocuda expF img2 m2 k = predict_nocuda expF img1 model k := by
  subst h
  refine ⟨rfl, rfl, fun res m2 hfull => ?_⟩
  rw [predict_full_model_frame expF img1 model k res m2 hfull]

/-- Witness for C6 at the all-gray image and the concrete loaded model. -/
theorem C6_witness :
    grayImage = grayImage ∧
      (process_image grayImage = process_image grayImage ∧
        predict_nocuda (fun q => q) grayImage wLoaded 3 =
          predict_nocuda (fun q => q) grayImage wLoaded 3 ∧
        ∀ res m2, predict_nocuda_full (fun q => q) grayImage wLoaded 3 = some (res, m2) →
          predict_nocuda (fun q => q) grayImage m2 3 =
            predict_nocuda (fun q => q) grayImage wLoaded 3) :=
  ⟨rfl, C6_deterministic grayImage grayImage rfl (fun q => q) wLoaded 3⟩

/-- C7: after `load_model_nocuda` every backbone parameter is marked
non-trainable, and `predict_nocuda` runs its forward pass inside
`torch.no_grad()`, so an inference call updates no model parameter: the model
state after any call equals the state before it. -/
theorem C7_frozen_backbone_no_update (r : Model) (c : Checkpoint) (m : Model) (opt : Optimizer)
    (h : load_model_nocuda r c = some (m, opt)) :
    (∀ p ∈ m.backbone, p.requires_grad = false) ∧
      ∀ expF image k res m2,
        predict_nocuda_full expF image m k = some (res, m2) → m2 = m := by
  obtain ⟨-, hb, -, -, -⟩ := load_model_nocuda_some r c m opt h
  constructor
  · rw [hb]
    exact load_values_frozen (r.backbone.map freezeParam) (by simp [freezeParam]) _
  · exact fun expF image k res m2 hf => predict_full_model_frame expF image m k res m2 hf

/-- Witness for C7 at a concrete pretrained model and checkpoint. -/
theorem C7_witness :
    load_model_nocuda wResnet wCkpt = some (wLoaded, wOpt) ∧
      ((∀ p ∈ wLoaded.backbone, p.requires_grad = false) ∧
        ∀ expF image k res m2,
          predict_nocuda_full expF image wLoaded k = some (res, m2) → m2 = wLoaded) :=
  ⟨rfl, C7_frozen_backbone_no_update wResnet wCkpt wLoaded wOpt rfl⟩

/-- C10: the freeze loop of `load_model_nocuda` runs over the pretrained
model's parameters before the head is replaced, so the replacement head's
parameters keep the `requires_grad` flags they had in the checkpoint — they
are never marked non-trainable by the loader; the frozen guarantee covers
exactly the backbone. -/
theorem C10_head_keeps_checkpoint_flags (r : Model) (c : Checkpoint) (m : Model) (opt : Optimizer)
    (h : load_model_nocuda r c = some (m, opt)) :
    m.fc.map (fun p => p.requires_grad) = c.fc.map (fun p => p.requires_grad) ∧
      ∀ p ∈ m.backbone, p.requires_grad = false := by
  obtain ⟨hlen, hb, hfc, -, -⟩ := load_model_nocuda_some r c m opt h
  constructor
  · rw [hfc]
    refine load_values_requires_grad c.fc _ ?_
    simp only [List.length_drop, List.length_map]
    omega
  · rw [hb]
    exact load_values_frozen (r.backbone.map freezeParam) (by simp [freezeParam]) _

/-- Witness for C10: the checkpoint head's flags (all trainable) survive the
load unchanged. -/
theorem C10_witness :
    load_model_nocuda wResnet wCkpt = some (wLoaded, wOpt) ∧
      (wLoaded.fc.map (fun p => p.requires_grad) = wCkpt.fc.map (fun p => p.requires_grad) ∧
        ∀ p ∈ wLoaded.backbone, p.requires_grad = false) :=
  ⟨rfl, C10_head_keeps_checkpoint_flags wResnet wCkpt wLoaded wOpt rfl⟩

/-- C8 counterexample: `load_model_nocuda` copies both label mappings verbatim
from the checkpoint, so a checkpoint whose `idx_to_class` is not the inverse
of its `class_to_idx` (here both have cardinality 1) loads successfully into a
model that violates the claimed inverse property: `class_to_idx` sends "a" to
0 but `idx_to_class` sends 0 to "b". -/
theorem C8_counterexample :
    ∃ m opt, load_model_nocuda wResnet badCkpt = some (m, opt) ∧
      ¬ ∀ L i, List.lookup L m.class_to_idx = some i →
          List.lookup i m.idx_to_class = some L := by
  refine ⟨_, _, rfl, fun hall => ?_⟩
  have hba := hall "a" 0 rfl
  exact absurd hba (by decide)

/-- C8 amended: `load_model_nocuda` attaches the checkpoint's two label
mappings to the model verbatim (no inversion is computed), so the loaded
model's index-to-class mapping is the exact inverse of its class-to-index
mapping precisely when the checkpoint's mappings already are mutually
inverse. -/
theorem C8_mappings_copied (r : Model) (c : Checkpoint) (m : Model) (opt : Optimizer)
    (h : load_model_nocuda r c = some (m, opt)) :
    m.class_to_idx = c.class_to_idx ∧ m.idx_to_class = c.idx_to_class ∧
      ((∀ L i, List.lookup L c.class_to_idx = some i →
          List.lookup i c.idx_to_class = some L) →
        ∀ L i, List.lookup L m.class_to_idx = some i →
          List.lookup i m.idx_to_class = some L) := by
  obtain ⟨-, -, -, hci, hic⟩ := load_model_nocuda_some r c m opt h
  exact ⟨hci, hic, fun hinv L i hLi => by
    rw [hic]
    exact hinv L i (by rwa [hci] at hLi)⟩

/-- Witness for the amended C8 at a checkpoint with mutually inverse
mappings. -/
theorem C8_witness :
    load_model_nocuda wResnet wCkpt = some (wLoaded, wOpt) ∧
      (wLoaded.class_to_idx = wCkpt.class_to_idx ∧
        wLoaded.idx_to_class = wCkpt.idx_to_class ∧
        ((∀ L i, List.lookup L wCkpt.class_to_idx = some i →
            List.lookup i wCkpt.idx_to_class = some L) →
          ∀ L i, List.lookup L wLoaded.class_to_idx = some i →
            List.lookup i wLoaded.idx_to_class = some L)) :=
  ⟨rfl, C8_mappings_copied wResnet wCkpt wLoaded wOpt rfl⟩

theorem enumQ_length (i : Nat) (l : List ℚ) : (enumQ i l).length = l.length := by
  induction l generalizing i with
  | nil => rfl
  | cons x xs ih => simp [enumQ, ih]

theorem enumQ_mem : ∀ (l : List ℚ) (i : Nat) (p : Nat × ℚ), p ∈ enumQ i l →
    i ≤ p.1 ∧ p.1 - i < l.length ∧ l.getD (p.1 - i) 0 = p.2 := by
  intro l
  induction l with
  | nil => intro i p hp; simp [enumQ] at hp
  | cons x xs ih =>
    intro i p hp
    simp only [enumQ, List.mem_cons] at hp
    rcases hp with hp | hp
    · subst hp
      simp
    · obtain ⟨h1, h2, h3⟩ := ih (i + 1) p hp
      refine ⟨by omega, by simp; omega, ?_⟩
      have hsub : p.1 - i = (p.1 - (i + 1)) + 1 := by omega
      rw [hsub, List.getD_cons_succ]
      exact h3

theorem torch_topk_spec (l : List ℚ) (k : Nat) (hk : k ≤ l.length) :
    ∃ vals idxs, torch_topk l k = some (vals, idxs) ∧
      vals.length = k ∧ idxs.length = k ∧
      List.Sorted (fun a b : ℚ => b ≤ a) vals ∧
      ∀ j, j < k → idxs.getD j 0 < l.length ∧
        l.getD (idxs.getD j 0) 0 = vals.getD j 0 := by
  have hlen0 : (enumQ 0 l).length = l.length := enumQ_length 0 l
  set s0 := List.insertionSort descPair (enumQ 0 l) with hs0def
  have hs0len : s0.length = l.length := by
    rw [hs0def, List.length_insertionSort, hlen0]
  have hslen : (s0.take k).length = k := by
    rw [List.length_take]; omega
  refine ⟨(s0.take k).map Prod.snd, (s0.take k).map Prod.fst, ?_, ?_, ?_, ?_, ?_⟩
  · simp only [torch_topk, if_pos hk, ← hs0def]
  · rw [List.length_map]; exact hslen
  · rw [List.length_map]; exact hslen
  · have hsorted : List.Sorted descPair s0 := List.sorted_insertionSort descPair (enumQ 0 l)
    have hst : List.Sorted descPair (s0.take k) := hsorted.sublist (List.take_sublist k s0)
    exact (List.pairwise_map).mpr hst
  · intro j hj
    have hjlen : j < (s0.take k).length := by omega
    obtain ⟨p, hp⟩ : ∃ p, (s0.take k).get? j = some p := ⟨_, List.get?_eq_get hjlen⟩
    have hpmem : p ∈ s0.take k := List.get?_mem hp
    have hpmem0 : p ∈ enumQ 0 l := by
      have h1 : p ∈ s0 := (List.take_sublist k s0).subset hpmem
      rw [hs0def] at h1
      exact (List.mem_insertionSort descPair).mp h1
    obtain ⟨-, hlt, hval⟩ := enumQ_mem l 0 p hpmem0
    have hfst : ((s0.take k).map Prod.fst).getD j 0 = p.1 := by
      rw [List.getD_eq_getD_get?, List.get?_map, hp]; rfl
    have hsnd : ((s0.take k).map Prod.snd).getD j 0 = p.2 := by
      rw [List.getD_eq_getD_get?, List.get?_map, hp]; rfl
    rw [hfst, hsnd]
    constructor
    · simpa using hlt
    · simpa using hval

theorem mapLookup_some (d : List (Nat × String)) :
    ∀ is : List Nat, (∀ i ∈ is, (List.lookup i d).isSome) →
      ∃ cs, mapLookup d is = some cs ∧ cs.length = is.length ∧
        ∀ j, j < is.length → List.lookup (is.getD j 0) d = some (cs.getD j "") := by
  intro is
  induction is with
  | nil =>
    intro _
    exact ⟨[], rfl, rfl, fun j hj => absurd hj (by simp)⟩
  | cons i is ih =>
    intro hall
    have hi : (List.lookup i d).isSome := hall i (List.mem_cons_self i is)
    obtain ⟨s, hs⟩ := Option.isSome_iff_exists.mp hi
    obtain ⟨cs, hcs, hlen, hcorr⟩ := ih (fun a ha => hall a (List.mem_cons_of_mem i ha))
    refine ⟨s :: cs, ?_, by simp [hlen], ?_⟩
    · simp [mapLookup, hs, hcs]
    · intro j hj
      cases j with
      | zero => simpa using hs
      | succ j => simpa using hcorr j (by simpa using hj)

/-- C2: for a valid RGB image and a loaded model with at least 3 classes whose
index-to-class lookup covers every class index, `predict_nocuda` with `k = 3`
returns exactly 3 (label, probability) pairs: the probabilities are the
exponentials (`torch.exp`, the parameter `expF`) of the model's raw
log-probability outputs at the selected class indices, listed in
non-increasing probability order, and each label is the image of the
corresponding top-k class index under the model's index-to-class lookup. -/
theorem C2_predict_topk (expF : ℚ → ℚ) (image : PILImage) (model : Model) (N : Nat)
    (himg : image.channels = 3)
    (hN : ∀ x, (model.forward x).length = N)
    (hN3 : 3 ≤ N)
    (hlk : ∀ i, i < N → (List.lookup i model.idx_to_class).isSome) :
    ∃ (t : NDArray) (tp : List ℚ) (tc : List String) (idxs : List Nat),
      (process_image image).bind (fun a => a.view [1, 3, 224, 224]) = some t ∧
      predict_nocuda expF image model 3 = some (tp, tc) ∧
      tp.length = 3 ∧ tc.length = 3 ∧
      List.Sorted (fun a b : ℚ => b ≤ a) tp ∧
      idxs.length = 3 ∧
      ∀ j, j < 3 →
        idxs.getD j 0 < N ∧
        tp.getD j 0 = expF ((model.forward t).getD (idxs.getD j 0) 0) ∧
        List.lookup (idxs.getD j 0) model.idx_to_class = some (tc.getD j "") := by
  obtain ⟨t0, hp, ht0sh, -⟩ := process_image_spec image himg
  have hcond : List.prod [1, 3, 224, 224] = t0.shape.prod := by rw [ht0sh]; rfl
  obtain ⟨t, hview⟩ : ∃ t, t0.view [1, 3, 224, 224] = some t := by
    unfold NDArray.view
    rw [if_pos hcond]
    exact ⟨_, rfl⟩
  have houtlen : (model.forward t).length = N := hN t
  have hpslen : 3 ≤ (List.map expF (model.forward t)).length := by
    rw [List.length_map, houtlen]; exact hN3
  obtain ⟨vals, idxs, htk, hvl, hil, hsorted, hcorr⟩ :=
    torch_topk_spec (List.map expF (model.forward t)) 3 hpslen
  have hidxlt : ∀ j, j < 3 → idxs.getD j 0 < N := by
    intro j hj
    have h1 := (hcorr j hj).1
    rwa [List.length_map, houtlen] at h1
  have hmem : ∀ i ∈ idxs, (List.lookup i model.idx_to_class).isSome := by
    intro i hi
    obtain ⟨n, hn⟩ := List.mem_iff_get?.mp hi
    obtain ⟨hlt', -⟩ := List.get?_eq_some.mp hn
    have hgd : idxs.getD n 0 = i := by rw [List.getD_eq_getD_get?, hn]; rfl
    have h2 := hidxlt n (by omega)
    rw [hgd] at h2
    exact hlk i h2
  obtain ⟨cs, hcs, hcslen, hcscorr⟩ := mapLookup_some model.idx_to_class idxs hmem
  have hfull : predict_nocuda_full expF image model 3 = some ((vals, cs), model) := by
    unfold predict_nocuda_full
    rw [hp]
    simp only [Option.bind_eq_bind, Option.some_bind]
    rw [hview]
    simp only [Option.some_bind, no_grad_forward]
    rw [htk]
    simp only [Option.some_bind]
    rw [hcs]
    rfl
  have hpred : predict_nocuda expF image model 3 = some (vals, cs) := by
    rw [predict_nocuda, hfull]; rfl
  refine ⟨t, vals, cs, idxs, ?_, hpred, hvl, by rw [hcslen, hil], hsorted, hil, ?_⟩
  · rw [hp]
    simpa using hview
  · intro j hj
    refine ⟨hidxlt j hj, ?_, ?_⟩
    · have h1 := (hcorr j hj).2
      have hn : idxs.getD j 0 < (model.forward t).length := by
        rw [houtlen]; exact hidxlt j hj
      obtain ⟨v, hv⟩ : ∃ v, (model.forward t).get? (idxs.getD j 0) = some v :=
        ⟨_, List.get?_eq_get hn⟩
      have h2 : (List.map expF (model.forward t)).getD (idxs.getD j 0) 0 = expF v := by
        rw [List.getD_eq_getD_get?, List.get?_map, hv]; rfl
      have h3 : (model.forward t).getD (idxs.getD j 0) 0 = v := by
        rw [List.getD_eq_getD_get?, hv]; rfl
      rw [← h1, h2, h3]
    · exact hcscorr j (by rw [hil]; exact hj)

/-- Witness for C2 at a concrete RGB image and the concrete loaded model with
exactly 3 classes. -/
theorem C2_witness :
    wImage.channels = 3 ∧ (∀ x, (wLoaded.forward x).length = 3) ∧ (3 : Nat) ≤ 3 ∧
      (∀ i, i < 3 → (List.lookup i wLoaded.idx_to_class).isSome) ∧
      ∃ (t : NDArray) (tp : List ℚ) (tc : List String) (idxs : List Nat),
        (process_image wImage).bind (fun a => a.view [1, 3, 224, 224]) = some t ∧
        predict_nocuda (fun q => q) wImage wLoaded 3 = some (tp, tc) ∧
        tp.length = 3 ∧ tc.length = 3 ∧
        List.Sorted (fun a b : ℚ => b ≤ a) tp ∧
        idxs.length = 3 ∧
        ∀ j, j < 3 →
          idxs.getD j 0 < 3 ∧
          tp.getD j 0 = (fun q => q) ((wLoaded.forward t).getD (idxs.getD j 0) 0) ∧
          List.lookup (idxs.getD j 0) wLoaded.idx_to_class = some (tc.getD j "") :=
  ⟨rfl, fun x => rfl, by decide, by decide,
    C2_predict_topk (fun q => q) wImage wLoaded 3 rfl (fun x => rfl) (by decide) (by decide)⟩
